import Mathlib

/-!
# Verification of the eCourts scraper's form-resolution and result-acquisition engine

This file gives a shallow embedding, in Lean 4, of the core pure logic of the
scraper found in `functions.py`:

* `_resolve_name_or_code`     → `resolve` (and its stages `codeStage`, `labelStage`,
  `substrCandidates`, `fuzzyStage`);
* `_parse_select_options`     → `parseSelectOptions`;
* the response classification performed inside `download_entire_cause_list`
  (JSON pdf keys → `try_close_in_html` banner scan → pdf anchor → table fallback)
  → `classifyStep`, and the variant without the banner scan used by
  `submit_causelist_attempt` → `classifySubmit`;
* the bounded retry loops of `download_entire_cause_list` and
  `submit_causelist_attempt` → `runDownloadLoop`, `runSubmitLoop`;
* the court-name derivation of `parse_eCourts_response` (the serial/clean/judge
  split driven by the regexes `\s*(\d+)\s*-\s*(.*)` and `([A-Z\s]+?)\s*JUDGE`)
  → `parseCourtName`;
* `parse_cause_list_html`'s sectioning loop → `parseCauseListRows`.

Modelling conventions:

* Python strings are Lean `String`s; the Python string methods used by the code
  (`strip`, `lower`, `title`, `isdigit`, substring `in`, `replace`, `split`,
  `int(...)`) are re-implemented below over `List Char`, for the ASCII range
  (the scraper only ever compares ASCII key words and markers).
* HTML documents are abstracted at the BeautifulSoup API boundary: a parsed
  document is represented by the observations the code extracts from it
  (select elements with their options, anchor `href`s, table cells with their
  `get_text`/`decode_contents` results).  Cell fragments are modelled as
  plain text (tag-free), which is exactly what `get_text` returns on them.
* Network and file-system collaborators (POSTs, `download_file`, captcha image
  capture) are abstracted: a retry loop consumes an oracle
  `responses : Nat → PostResult` giving the outcome of each POST, and external
  downloads are modelled as succeeding.
* `difflib.get_close_matches(s, texts, n=1, cutoff=0.6)` is modelled by
  `fuzzyBest`: the similarity ratio `2*M/T` is computed with the matching-block
  recursion of `difflib.SequenceMatcher` (without the `autojunk` heuristic,
  which only triggers on inputs of length ≥ 200) and compared with the cutoff
  as an exact rational, ties resolved like `heapq.nlargest` on `(ratio, text)`.
-/

/-! ## Python string primitives -/

/-- The whitespace characters stripped by Python's `str.strip()` and matched by
the regex class `\s` (ASCII range). -/
def pyIsSpaceChar (c : Char) : Bool :=
  c = ' ' || c = '\t' || c = '\n' || c = '\r' || c = '\x0b' || c = '\x0c'

/-- ASCII decimal digit. -/
def isDigitChar (c : Char) : Bool := '0' ≤ c && c ≤ '9'

/-- ASCII letter. -/
def isAsciiAlpha (c : Char) : Bool := ('A' ≤ c && c ≤ 'Z') || ('a' ≤ c && c ≤ 'z')

/-- Python `str.strip()` on a list of characters. -/
def stripList (cs : List Char) : List Char :=
  ((cs.dropWhile pyIsSpaceChar).reverse.dropWhile pyIsSpaceChar).reverse

/-- Python `str.strip()`. -/
def pyStrip (s : String) : String := ⟨stripList s.toList⟩

/-- Python `str.lower()` (ASCII range). -/
def pyLower (s : String) : String := ⟨s.toList.map Char.toLower⟩

/-- Python `str.title()` on a list of characters: a letter is upper-cased when the
previous character is not a letter, lower-cased otherwise (ASCII range). -/
def titleList : Bool → List Char → List Char
  | _, [] => []
  | prevAlpha, c :: cs =>
    if isAsciiAlpha c then
      (if prevAlpha then Char.toLower c else Char.toUpper c) :: titleList true cs
    else c :: titleList false cs

/-- Python `str.title()`. -/
def pyTitle (s : String) : String := ⟨titleList false s.toList⟩

/-- Python `needle in hay` for lists of characters (substring containment). -/
def isSubList : List Char → List Char → Bool
  | needle, [] => needle.isEmpty
  | needle, c :: t => needle.isPrefixOf (c :: t) || isSubList needle t

/-- Python `needle in hay` on strings. -/
def strContains (hay needle : String) : Bool := isSubList needle.toList hay.toList

/-- Python `s.isdigit()` (ASCII range): non-empty and all digits. -/
def pyIsDigitStr (s : String) : Bool := !s.toList.isEmpty && s.toList.all isDigitChar

/-- Decimal value of a digit list. -/
def digitsToNat (ds : List Char) : Nat :=
  ds.foldl (fun acc c => 10 * acc + (c.toNat - '0'.toNat)) 0

/-- Python `int(s)` on an already-stripped string: optional sign followed by at
least one digit, `none` when `int` would raise `ValueError` (digit-group
underscores are not modelled; the scraper feeds it interactive replies). -/
def pyInt (s : String) : Option Int :=
  match s.toList with
  | [] => none
  | cs =>
    let signAndDigits : Int × List Char :=
      match cs with
      | '-' :: t => (-1, t)
      | '+' :: t => (1, t)
      | t => (1, t)
    if !signAndDigits.2.isEmpty && signAndDigits.2.all isDigitChar then
      some (signAndDigits.1 * (digitsToNat signAndDigits.2 : Int))
    else none

/-- One pass of Python `str.replace(pat, rep)` over a character list
(left-to-right, non-overlapping); `fuel` bounds the recursion and is always
called with the length of the list.  An empty pattern is treated as a no-op
(the scraper only replaces `"View"` and `"<br>"`). -/
def replaceList (pat rep : List Char) : Nat → List Char → List Char
  | _, [] => []
  | 0, cs => cs
  | fuel + 1, c :: cs =>
    if !pat.isEmpty && pat.isPrefixOf (c :: cs) then
      rep ++ replaceList pat rep fuel ((c :: cs).drop pat.length)
    else c :: replaceList pat rep fuel cs

/-- Python `s.replace(pat, rep)`. -/
def pyReplace (s pat rep : String) : String :=
  ⟨replaceList pat.toList rep.toList s.toList.length s.toList⟩

/-! ## Options and the resolver (`_resolve_name_or_code`)

`_resolve_name_or_code(opts, user_input)` resolves a free-text input against a
list of `{'value', 'text'}` dicts.  Its ambiguous branch reads one line from
the operator (`input(...)`); that interactive reply is passed in here as the
explicit argument `choice`. -/

/-- One select option: `{'value': ..., 'text': ...}`. -/
structure Opt where
  value : String
  text : String
deriving DecidableEq, Repr

/-- Stage 1 of `_resolve_name_or_code`: exact match on `o["value"]`. -/
def codeStage (opts : List Opt) (s : String) : Option Opt :=
  opts.find? (fun o => o.value == s)

/-- Stage 2: exact case-insensitive match on `o["text"]`. -/
def labelStage (opts : List Opt) (s : String) : Option Opt :=
  opts.find? (fun o => pyLower o.text == pyLower s)

/-- Stage 3 candidate set: case-insensitive substring match on `o["text"]`. -/
def substrCandidates (opts : List Opt) (s : String) : List Opt :=
  opts.filter (fun o => strContains (pyLower o.text) (pyLower s))

/-! ### difflib fuzzy matching (stage 4) -/

/-- Length of the common prefix of two character lists. -/
def commonPrefixLen : List Char → List Char → Nat
  | a :: as, b :: bs => if a = b then commonPrefixLen as bs + 1 else 0
  | _, _ => 0

/-- Port of `SequenceMatcher.find_longest_match` over the whole of `a` and `b`
(no junk): the `(i, j, k)` with maximal `k`, ties broken by smallest `i`
then smallest `j`. -/
def longestMatch (a b : List Char) : Nat × Nat × Nat :=
  (List.range (a.length + 1)).foldl
    (fun best i =>
      (List.range (b.length + 1)).foldl
        (fun best j =>
          let k := commonPrefixLen (a.drop i) (b.drop j)
          if k > best.2.2 then (i, j, k) else best)
        best)
    (0, 0, 0)

/-- Total size of `SequenceMatcher.get_matching_blocks`: recursively take the
longest match and recurse on the pieces to its left and right.  `fuel` bounds
the recursion; `a.length + b.length + 1` always suffices since each recursive
call strictly shrinks the combined length. -/
def matchTotalFuel : Nat → List Char → List Char → Nat
  | 0, _, _ => 0
  | fuel + 1, a, b =>
    let m := longestMatch a b
    if m.2.2 = 0 then 0
    else
      matchTotalFuel fuel (a.take m.1) (b.take m.2.1) + m.2.2 +
        matchTotalFuel fuel (a.drop (m.1 + m.2.2)) (b.drop (m.2.1 + m.2.2))

/-- Total matched size `M` between two character lists. -/
def matchTotal (a b : List Char) : Nat :=
  matchTotalFuel (a.length + b.length + 1) a b

/-- Port of `SequenceMatcher.ratio()` as an exact rational `(numerator, denominator)`:
`2*M / (len a + len b)`, and `1.0` when both are empty. -/
def ratioPair (a b : List Char) : Nat × Nat :=
  let t := a.length + b.length
  if t = 0 then (1, 1) else (2 * matchTotal a b, t)

/-- Test `ratio ≥ 0.6` (the fixed `difflib.get_close_matches` cutoff), compared as
exact rationals: `r ≥ 3/5  ↔  5*num ≥ 3*den`. -/
def ratioGeCutoff (r : Nat × Nat) : Bool := 5 * r.1 ≥ 3 * r.2

/-- Strict comparison of two ratio fractions (positive denominators). -/
def ratioGt (r q : Nat × Nat) : Bool := r.1 * q.2 > q.1 * r.2

/-- Equality of two ratio fractions. -/
def ratioEq (r q : Nat × Nat) : Bool := r.1 * q.2 == q.1 * r.2

/-- Python string `<` (code-point lexicographic) as a Bool, `a > b` form. -/
def strGtPy (a b : String) : Bool := decide (b < a)

/-- Port of `difflib.get_close_matches(s, texts, n=1, cutoff=0.6)` yielding the single
best match: keep the candidates whose ratio passes the cutoff, then take the
maximum of `(ratio, text)` as `heapq.nlargest` does (ties: the larger string;
among equal tuples the earliest candidate). -/
def fuzzyBest (texts : List String) (s : String) : Option String :=
  let sl := s.toList
  let cands := texts.filterMap (fun t =>
    let r := ratioPair t.toList sl
    if ratioGeCutoff r then some (t, r) else none)
  (cands.foldl
    (fun best c =>
      match best with
      | none => some c
      | some b =>
        if ratioGt c.2 b.2 || (ratioEq c.2 b.2 && strGtPy c.1 b.1) then some c
        else some b)
    none).map (fun p => p.1)

/-- Stage 4 of `_resolve_name_or_code`: fuzzy best match over the visible
texts, then the first option bearing that text. -/
def fuzzyStage (opts : List Opt) (s : String) : Option Opt :=
  match fuzzyBest (opts.map (fun o => o.text)) s with
  | some b => opts.find? (fun o => o.text == b)
  | none => none

/-- The ambiguous branch of `_resolve_name_or_code` (more than one substring
candidate): the operator's reply `choice` is stripped and parsed with `int`;
a parse failure (including an empty reply) selects the first candidate, an
in-range number selects that candidate, and an out-of-range number falls
through to the fuzzy stage. -/
def ambiguousBranch (opts : List Opt) (s : String) (subs : List Opt)
    (choice : String) : Option Opt :=
  match pyInt (pyStrip choice) with
  | some n =>
    if 0 ≤ n - 1 ∧ n - 1 < (subs.length : Int) then subs[(n - 1).toNat]?
    else fuzzyStage opts s
  | none => subs[0]?

/-- Port of `_resolve_name_or_code(opts, user_input)`.  The argument `choice` is the line the
operator types when the substring stage is ambiguous (unused otherwise). -/
def resolve (opts : List Opt) (userInput : String) (choice : String) : Option Opt :=
  if userInput = "" then none
  else
    match codeStage opts (pyStrip userInput) with
    | some o => some o
    | none =>
      match labelStage opts (pyStrip userInput) with
      | some o => some o
      | none =>
        if (substrCandidates opts (pyStrip userInput)).length = 1 then
          (substrCandidates opts (pyStrip userInput))[0]?
        else if (substrCandidates opts (pyStrip userInput)).length > 1 then
          ambiguousBranch opts (pyStrip userInput)
            (substrCandidates opts (pyStrip userInput)) choice
        else fuzzyStage opts (pyStrip userInput)

example : resolve [⟨"9", "Pune"⟩, ⟨"10", "Mumbai"⟩] "mumbai" "" = some ⟨"10", "Mumbai"⟩ := by decide
example : resolve [⟨"9", "Pune"⟩] "" "" = none := by decide
example : resolve [⟨"9", "Pune"⟩] " " "" = some ⟨"9", "Pune"⟩ := by decide
example : resolve [⟨"A", "X"⟩, ⟨"2", "a"⟩] "A" "" = some ⟨"A", "X"⟩ := by decide
example : resolve [⟨"1", "Alpha One"⟩, ⟨"2", "Alpha Two"⟩] "Alpha" "" = some ⟨"1", "Alpha One"⟩ := by decide
example : resolve [⟨"1", "Alpha One"⟩, ⟨"2", "Alpha Two"⟩] "Alpha" "2" = some ⟨"2", "Alpha Two"⟩ := by decide
set_option maxRecDepth 4000 in
example : resolve [⟨"1", "Pnue"⟩] "Pune" "" = some ⟨"1", "Pnue"⟩ := by decide

/-! ## `_parse_select_options`

A parsed page is abstracted as the list of its `<select>` elements; each
carries its `name`/`id` attributes and its `<option>` children, and each raw
option carries its `value` attribute (absent ⇒ `none`) and its text. -/

/-- A raw `<option>` element: `o.get("value")` and `o.text`. -/
structure RawOpt where
  value : Option String
  text : Option String
deriving DecidableEq, Repr

/-- A raw `<select>` element with its attributes and options. -/
structure Sel where
  nameAttr : Option String
  idAttr : Option String
  options : List RawOpt
deriving DecidableEq, Repr

/-- Port of `soup.find("select", {"name": n}) or soup.find("select", {"id": n})`. -/
def findSel (soup : List Sel) (n : String) : Option Sel :=
  match soup.find? (fun s => s.nameAttr == some n) with
  | some s => some s
  | none => soup.find? (fun s => s.idAttr == some n)

/-- The option-filtering body of `_parse_select_options`: keep
`{value, text}` when the stripped value is truthy and its lower-case form is
not one of the placeholder values `"0"`, `"select"`, `"null"`, `""`. -/
def keptOptions (sel : Sel) : List Opt :=
  sel.options.filterMap (fun o =>
    let v := pyStrip (o.value.getD "")
    let t := pyStrip (o.text.getD "")
    if v ≠ "" ∧ pyLower v ∉ ["0", "select", "null", ""] then some ⟨v, t⟩
    else none)

/-- Port of `_parse_select_options(soup, select_name_candidates)`: try each candidate
name; when a select is found and yields a non-empty option list, return it;
otherwise fall through to the next candidate, and finally to `[]`. -/
def parseSelectOptions (soup : List Sel) : List String → List Opt
  | [] => []
  | n :: rest =>
    match findSel soup n with
    | some sel =>
      let opts := keptOptions sel
      if opts.isEmpty then parseSelectOptions soup rest else opts
    | none => parseSelectOptions soup rest

/-! ## Response classification

A server response is abstracted at the points the code inspects it:
`resp.json()` (as an association list of string fields, `none` when the body
is not a JSON object), `resp.text`, the `href`s of its anchors, the
concatenated html of its `<table>` elements, and the inner html of `<body>`. -/

/-- One POST response, as observed by the code. -/
structure Response where
  /-- `resp.json()` as string fields, `none` when not a JSON object. -/
  jsonFields : Option (List (String × String))
  /-- `resp.text`. -/
  text : String
  /-- `href` attributes of the `<a>` elements, in document order
  (`none` when an anchor has no `href`). -/
  anchors : List (Option String)
  /-- `str(tbl) + "\n"` concatenated over `soup.find_all("table")`. -/
  tablesHtml : String
  /-- `soup.body.decode_contents()`, `none` when there is no `<body>`. -/
  bodyInner : Option String
deriving DecidableEq, Repr

/-- Python `s.startswith(pre)` (computed over the character lists). -/
def pyStartsWith (s pre : String) : Bool := pre.toList.isPrefixOf s.toList

/-- Python `s.endswith(post)` (computed over the character lists). -/
def pyEndsWith (s post : String) : Bool := post.toList.isSuffixOf s.toList

/-- The constant `BASE_URL` from `functions.py`. -/
def BASE_URL : String := "https://services.ecourts.gov.in/ecourtindia_v6/"

/-- Model of `urllib.parse.urljoin(BASE_URL, rel)` specialised to the scraper's base
URL, for the reference shapes the code produces (plain relative paths,
absolute paths, scheme-relative); dot-segment and query/fragment merging are
not modelled. -/
def urljoinBase (rel : String) : String :=
  if rel = "" then BASE_URL
  else if pyStartsWith rel "//" then "https:" ++ rel
  else if pyStartsWith rel "/" then "https://services.ecourts.gov.in" ++ rel
  else BASE_URL ++ rel

/-- Port of `if not pdf_url.startswith("http"): pdf_url = urljoin(BASE_URL, pdf_url)`. -/
def absolutize (u : String) : String :=
  if pyStartsWith u "http" then u else urljoinBase u

/-- The recognised JSON pdf key names, in the order the code tries them. -/
def pdfKeys : List String := ["pdfUrl", "pdf_url", "cause_list_pdf", "pdf"]

/-- Port of `j.get("pdfUrl") or j.get("pdf_url") or j.get("cause_list_pdf") or
j.get("pdf")` followed by the `if pdf_url:` truthiness test: the first key
whose value is present and non-empty. -/
def jsonPdfUrl (j : List (String × String)) : Option String :=
  pdfKeys.findSome? (fun k =>
    match j.lookup k with
    | some v => if v = "" then none else some v
    | none => none)

/-- The JSON pdf extraction applied to a response (`none` when the body is not
a JSON object or has no truthy pdf field). -/
def jsonPdf (r : Response) : Option String :=
  match r.jsonFields with
  | some j => jsonPdfUrl j
  | none => none

/-- The blocking-banner substrings of `try_close_in_html`. -/
def blockers : List String :=
  ["invalid request", "oops", "try once again", "please try again", "access denied"]

/-- Port of `try_close_in_html(html_text)`: false on an empty body, otherwise a
case-insensitive substring scan for the known banner texts. -/
def tryCloseInHtml (htmlText : String) : Bool :=
  if htmlText = "" then false
  else blockers.any (fun b => strContains (pyLower htmlText) b)

/-- Port of `soup.find("a", href=lambda h: h and h.lower().endswith(".pdf"))`:
the first anchor with a truthy `href` ending (case-insensitively) in ".pdf". -/
def firstPdfAnchor (anchors : List (Option String)) : Option String :=
  anchors.findSome? (fun h? =>
    match h? with
    | some h => if h ≠ "" ∧ pyEndsWith (pyLower h) ".pdf" then some h else none
    | none => none)

/-- Port of `if not all_tables_html.strip(): all_tables_html = body or resp.text`. -/
def htmlFallback (r : Response) : String :=
  if pyStrip r.tablesHtml ≠ "" then r.tablesHtml else r.bodyInner.getD r.text

/-- The decision taken on one classified response inside the retry loop. -/
inductive StepClass where
  /-- A JSON pdf field was found (terminal: download and break). -/
  | gotPdfJson (url : String)
  /-- A blocking banner was detected (retry). -/
  | banner
  /-- An html pdf anchor was found (terminal). -/
  | gotPdfAnchor (url : String)
  /-- Table/body html is saved as the fallback artifact (terminal). -/
  | savedHtml (content : String)
deriving DecidableEq, Repr

/-- The response classification of `download_entire_cause_list`, in code
order: JSON pdf keys, then the `try_close_in_html` banner scan over
`resp.text`, then the pdf anchor, then the table/body fallback. -/
def classifyStep (r : Response) : StepClass :=
  match jsonPdf r with
  | some u => .gotPdfJson (absolutize u)
  | none =>
    if tryCloseInHtml r.text then .banner
    else
      match firstPdfAnchor r.anchors with
      | some h => .gotPdfAnchor (absolutize h)
      | none => .savedHtml (htmlFallback r)

/-- The response classification of `submit_causelist_attempt`, which performs
no banner scan: JSON pdf keys, then the pdf anchor, then the fallback. -/
def classifySubmit (r : Response) : StepClass :=
  match jsonPdf r with
  | some u => .gotPdfJson (absolutize u)
  | none =>
    match firstPdfAnchor r.anchors with
    | some h => .gotPdfAnchor (absolutize h)
    | none => .savedHtml (htmlFallback r)

/-! ## The captcha-gated retry loops

The payload is built once, before the loop, from the template, the civil or
criminal discriminator and the captcha text typed by the operator
(`payload["cause_list_captcha_code"] = input("Enter captcha: ").strip()`); the
loop then re-POSTs that same payload on every retry.  Each POST's outcome is
drawn from an oracle `responses : Nat → PostResult` indexed by the attempt
number; external pdf downloads are modelled as succeeding.  Sleeps are
recorded in tenths of a second (`time.sleep(0.8 * attempt)` ⇒ `8 * attempt`). -/

/-- A submission payload (committed codes + discriminator + captcha text). -/
structure Payload where
  fields : List (String × String)
  cicri : String
  captcha : String
deriving DecidableEq, Repr

/-- Building the payload for one cicri from the template and the captcha. -/
def mkPayload (fields : List (String × String)) (cicri captcha : String) : Payload :=
  ⟨fields, cicri, captcha⟩

/-- Outcome of one `session.post` (raising in `post`/`raise_for_status` is
`netFail`). -/
inductive PostResult where
  | netFail
  | ok (r : Response)

/-- The saved artifact of one cicri download. -/
inductive Saved where
  | pdfFile (url : String)
  | htmlFile (content : String)
deriving DecidableEq, Repr

/-- The observable outcome of one retry loop: the artifact (or `none` when the
retries were exhausted), the payload of every POST made, and the recorded
backoff sleeps in tenths of a second. -/
structure LoopOut where
  saved : Option Saved
  submissions : List Payload
  sleeps : List Nat
deriving DecidableEq, Repr

/-- The retry loop of `download_entire_cause_list` (one cicri):
`while attempt < max_retries_on_popup`, POST the payload, retry with backoff
`0.8 * attempt` on a network failure and `0.6 * attempt` on a banner, break on
any other classification. -/
def runDownloadAux (responses : Nat → PostResult) (payload : Payload) :
    Nat → Nat → List Payload → List Nat → LoopOut
  | 0, _, subs, sleeps => ⟨none, subs.reverse, sleeps.reverse⟩
  | fuel + 1, attempt, subs, sleeps =>
    match responses (attempt + 1) with
    | .netFail =>
      runDownloadAux responses payload fuel (attempt + 1) (payload :: subs)
        (8 * (attempt + 1) :: sleeps)
    | .ok r =>
      match classifyStep r with
      | .gotPdfJson u => ⟨some (.pdfFile u), (payload :: subs).reverse, sleeps.reverse⟩
      | .banner =>
        runDownloadAux responses payload fuel (attempt + 1) (payload :: subs)
          (6 * (attempt + 1) :: sleeps)
      | .gotPdfAnchor u => ⟨some (.pdfFile u), (payload :: subs).reverse, sleeps.reverse⟩
      | .savedHtml c => ⟨some (.htmlFile c), (payload :: subs).reverse, sleeps.reverse⟩

/-- The full loop of `download_entire_cause_list` for one cicri. -/
def runDownloadLoop (responses : Nat → PostResult) (maxRetries : Nat)
    (payload : Payload) : LoopOut :=
  runDownloadAux responses payload maxRetries 0 [] []

/-- The retry loop of `submit_causelist_attempt`: same bounded structure, but
only a network failure retries (backoff `0.6 * attempt`); every classified
response is terminal because this loop performs no banner scan. -/
def runSubmitAux (responses : Nat → PostResult) (payload : Payload) :
    Nat → Nat → List Payload → List Nat → LoopOut
  | 0, _, subs, sleeps => ⟨none, subs.reverse, sleeps.reverse⟩
  | fuel + 1, attempt, subs, sleeps =>
    match responses (attempt + 1) with
    | .netFail =>
      runSubmitAux responses payload fuel (attempt + 1) (payload :: subs)
        (6 * (attempt + 1) :: sleeps)
    | .ok r =>
      match classifySubmit r with
      | .gotPdfJson u => ⟨some (.pdfFile u), (payload :: subs).reverse, sleeps.reverse⟩
      | .banner => ⟨none, (payload :: subs).reverse, sleeps.reverse⟩
      | .gotPdfAnchor u => ⟨some (.pdfFile u), (payload :: subs).reverse, sleeps.reverse⟩
      | .savedHtml c => ⟨some (.htmlFile c), (payload :: subs).reverse, sleeps.reverse⟩

/-- The full loop of `submit_causelist_attempt`
(`payload = template + cicri + captcha_value`). -/
def runSubmitLoop (responses : Nat → PostResult) (maxRetries : Nat)
    (payload : Payload) : LoopOut :=
  runSubmitAux responses payload maxRetries 0 [] []

/-- Whether a POST outcome is retried by the download loop (network failure or
blocking banner): the spec's `Transient`. -/
def isTransient (pr : PostResult) : Bool :=
  match pr with
  | .netFail => true
  | .ok r => classifyStep r == .banner

/-- Backoff base for a transient outcome, in tenths of a second
(`0.8` for a network failure, `0.6` for a banner). -/
def transientDelay (pr : PostResult) : Nat :=
  match pr with
  | .netFail => 8
  | .ok _ => 6

/-! ## Court-name derivation (`parse_eCourts_response`)

From the raw court-name string, the code derives three fields with two
regexes:

* `re.match(r"\s*(\d+)\s*-\s*(.*)", text)` splits off the leading serial
  digits before the first hyphen; with no backtracking ambiguity this is:
  skip whitespace, take a maximal non-empty digit run, skip whitespace,
  require a hyphen, skip whitespace, and `(.*)` takes the rest of the line
  (up to a newline, which `.` does not match).
* `re.search(r"([A-Z\s]+?)\s*JUDGE", remainder, re.I)` finds, at the leftmost
  feasible start, the shortest non-empty run of letters/whitespace followed by
  optional whitespace and the token `JUDGE` (case-insensitive).  Because
  `JUDGE` starts with a non-whitespace character, the greedy `\s*` always
  lands exactly at the end of the whitespace run, so the search is modelled by
  `searchJudge`: at each start position whose head is a letter or whitespace,
  grow the group one character at a time and test whether `JUDGE` follows the
  whitespace run after it. -/

/-- A character matched by the class `[A-Z\s]` under `re.I` (ASCII range). -/
def isClassChar (c : Char) : Bool := isAsciiAlpha c || pyIsSpaceChar c

/-- Skip the maximal whitespace run. -/
def dropWs (cs : List Char) : List Char := cs.dropWhile pyIsSpaceChar

/-- Whether the list starts with the token `JUDGE`, case-insensitively. -/
def judgeLeads (cs : List Char) : Bool :=
  (cs.take 5).map Char.toLower == ['j', 'u', 'd', 'g', 'e']

/-- Grow the lazily-matched group `g` through class characters; at each length
test whether (after the whitespace run) `JUDGE` follows.  Returns the group
and the suffix starting at `JUDGE`. -/
def tryGroup (g : List Char) : List Char → Option (List Char × List Char)
  | [] => none
  | c :: r' =>
    if judgeLeads (dropWs (c :: r')) then some (g, dropWs (c :: r'))
    else if isClassChar c then tryGroup (g ++ [c]) r'
    else none

/-- Port of `re.search(r"([A-Z\s]+?)\s*JUDGE", remainder, re.I)`: leftmost start, then
shortest group. -/
def searchJudge : List Char → Option (List Char × List Char)
  | [] => none
  | c :: rest =>
    match (if isClassChar c then tryGroup [c] rest else none) with
    | some res => some res
    | none => searchJudge rest

/-- Port of `re.match(r"\s*(\d+)\s*-\s*(.*)", text)`: `some (digits, remainder)` on a
match, `none` otherwise. -/
def serialMatch (cs : List Char) : Option (List Char × List Char) :=
  let rest0 := cs.dropWhile pyIsSpaceChar
  let digits := rest0.takeWhile isDigitChar
  if digits.isEmpty then none
  else
    match (rest0.dropWhile isDigitChar).dropWhile pyIsSpaceChar with
    | c :: rest2 =>
      if c = '-' then
        some (digits, (rest2.dropWhile pyIsSpaceChar).takeWhile (fun c => c ≠ '\n'))
      else none
    | [] => none

/-- The derived court-name fields of `parse_eCourts_response`. -/
structure CourtNameParts where
  serial_number : Option String
  court_name_clean : String
  judge_name_and_court_address : Option String
deriving DecidableEq, Repr

/-- The court-name derivation of `parse_eCourts_response`: strip, split off
the serial digits, then split the remainder at `JUDGE`.  When the `JUDGE`
search matches, the cleaned name is `group(1).strip().title()` and the judge
field is the stripped suffix from `JUDGE`; otherwise the whole remainder
becomes the cleaned name (un-titled) and the judge field is `none`. -/
def parseCourtName (courtName : String) : CourtNameParts :=
  let text := (pyStrip courtName).toList
  let serialAndRem : Option String × List Char :=
    match serialMatch text with
    | some (d, r) => (some ⟨d⟩, r)
    | none => (none, text)
  match searchJudge serialAndRem.2 with
  | some (g, fromJudge) =>
    ⟨serialAndRem.1, pyTitle (pyStrip ⟨g⟩), some (pyStrip ⟨fromJudge⟩)⟩
  | none => ⟨serialAndRem.1, ⟨serialAndRem.2⟩, none⟩

example :
    parseCourtName "1-CIVIL JUDGE J.D. AND J.M.F.C. PMC PUNE" =
      ⟨some "1", "Civil", some "JUDGE J.D. AND J.M.F.C. PMC PUNE"⟩ := by decide

example :
    parseCourtName "1-JUDGE SMITH" = ⟨some "1", "JUDGE SMITH", none⟩ := by decide

example :
    parseCourtName "2-SMALL CAUSES COURT" = ⟨some "2", "SMALL CAUSES COURT", none⟩ := by
  decide

/-! ## Cause-list parsing (`parse_cause_list_html`)

The rows of the `dispTable` tables are abstracted as lists of cells; each
cell carries the three observations the code makes of it
(`get_text(strip=True)`, `get_text(" ", strip=True)`, `decode_contents()`),
and a row carries its style marker (`"color:#3880d4" in str(tr)`).  Cell
fragments are plain text, so `BeautifulSoup(frag).get_text(sep, strip=True)`
is `frag.strip()`. -/

/-- One `<td>` as observed by the parser. -/
structure Cell where
  textStrip : String
  textSpace : String
  contents : String
deriving DecidableEq, Repr

/-- One `<tr>`: its `<td>` children and the blue-header style marker. -/
structure Row where
  cells : List Cell
  styled : Bool
deriving DecidableEq, Repr

/-- One parsed cause-list case. -/
structure CLCase where
  sr_no : String
  case_no : String
  party_for : String
  party_against : String
  advocates : List String
  rawParty : String
  rawAdv : String
deriving DecidableEq, Repr

/-- One parsed section. -/
structure CLSection where
  section_name : String
  cases : List CLCase
deriving DecidableEq, Repr

/-- The accumulator of the row loop: flushed sections, the pending section
name and its cases. -/
structure CLState where
  sections : List CLSection
  name : Option String
  cases : List CLCase
deriving DecidableEq, Repr

/-- Port of `flush_section()`: append the pending section only when its name is truthy
and it has at least one case, then reset. -/
def flushSection (st : CLState) : CLState :=
  match st.name with
  | some n =>
    if n ≠ "" ∧ st.cases ≠ [] then ⟨st.sections ++ [⟨n, st.cases⟩], none, []⟩
    else ⟨st.sections, none, []⟩
  | none => ⟨st.sections, none, []⟩

/-- Word character for the regex `\b` boundary: `[A-Za-z0-9_]` (ASCII). -/
def isWordChar (c : Char) : Bool := isAsciiAlpha c || isDigitChar c || c = '_'

/-- Whether `versus` occurs here with a right word boundary. -/
def versusAt (cs : List Char) : Bool :=
  (cs.take 6).map Char.toLower == ['v', 'e', 'r', 's', 'u', 's'] &&
    (match cs.drop 6 with
     | [] => true
     | c :: _ => !isWordChar c)

/-- Port of `re.split(r"\bversus\b", party_raw, flags=re.I)`: scan left to right,
splitting at each boundary-delimited occurrence. `prev` is the character just
before the scan position; `fuel` bounds the recursion (the list length
suffices, as each step consumes at least one character). -/
def splitVersusAux (prev : Option Char) (acc : List Char) :
    Nat → List Char → List (List Char)
  | _, [] => [acc.reverse]
  | 0, rest => [acc.reverse ++ rest]
  | fuel + 1, c :: cs =>
    if (match prev with | none => true | some p => !isWordChar p) &&
        versusAt (c :: cs) then
      acc.reverse :: splitVersusAux (some 's') [] fuel ((c :: cs).drop 6)
    else splitVersusAux (some c) (c :: acc) fuel cs

/-- Port of `re.split(r"\bversus\b", s, flags=re.I)` on a string. -/
def splitVersus (s : String) : List String :=
  (splitVersusAux none [] s.toList.length s.toList).map (fun l => String.mk l)

/-- Python `s.split("\n")` over the character list: split at every newline,
keeping empty pieces. -/
def splitOnNewline : List Char → List (List Char)
  | [] => [[]]
  | c :: cs =>
    if c = '\n' then [] :: splitOnNewline cs
    else
      match splitOnNewline cs with
      | [] => [[c]]
      | l :: ls => (c :: l) :: ls

/-- Python `s.split("\n")`. -/
def splitNewlines (s : String) : List String := (splitOnNewline s.toList).map String.mk

/-- Build one case from the first four cells of a case row, mirroring the
field extraction of `parse_cause_list_html` (cell fragments are plain text,
so the nested `BeautifulSoup(...).get_text(sep, strip=True)` calls reduce to
`strip()`). -/
def mkCase (c0 c1 c2 c3 : Cell) : CLCase :=
  let party_raw := pyReplace c2.contents "<br>" "\n"
  let advocate_raw := pyReplace c3.contents "<br>" "\n"
  let parts := splitVersus party_raw
  let partyPair : String × String :=
    match parts with
    | [p0, p1] => (pyStrip p0, pyStrip p1)
    | _ => (pyStrip party_raw, "")
  let advocates :=
    ((splitNewlines (pyStrip advocate_raw)).map pyStrip).filter (fun a => a ≠ "")
  { sr_no := c0.textStrip
    case_no := pyStrip (pyReplace c1.textSpace "View" "")
    party_for := partyPair.1
    party_against := partyPair.2
    advocates := advocates
    rawParty := pyStrip party_raw
    rawAdv := pyStrip advocate_raw }

/-- The case-row check at the bottom of the loop body: with at least four
cells and a purely numeric first cell, append the case; otherwise leave the
state unchanged. -/
def caseCheck (st : CLState) (row : Row) : CLState :=
  match row.cells with
  | c0 :: c1 :: c2 :: c3 :: _ =>
    if pyIsDigitStr c0.textStrip then { st with cases := st.cases ++ [mkCase c0 c1 c2 c3] }
    else st
  | _ => st

/-- One iteration of the row loop: rows without cells are skipped; a
single-cell or blue-styled row whose text is non-empty and not a filler value
(`"-"`, `"hr"`, `"HR"`) flushes the pending section and names a new one; any
other row (including a filler header) falls through to the case-row check. -/
def stepRow (st : CLState) (row : Row) : CLState :=
  match row.cells with
  | [] => st
  | c0 :: _ =>
    if row.cells.length = 1 ∨ row.styled then
      let txt := c0.textSpace
      if txt ≠ "" ∧ txt ∉ ["-", "hr", "HR"] then
        let st' := flushSection st
        ⟨st'.sections, some txt, st'.cases⟩
      else caseCheck st row
    else caseCheck st row

/-- Port of `parse_cause_list_html` over the rows of the `dispTable` tables, in
document order: fold the row loop, then flush the pending section. -/
def parseCauseListRows (rows : List Row) : List CLSection :=
  (flushSection (rows.foldl stepRow ⟨[], none, []⟩)).sections

/-! ## Helper lemmas -/

theorem find?_of_filter_eq_singleton {α : Type} (p : α → Bool) :
    ∀ (l : List α) (a : α), l.filter p = [a] → l.find? p = some a := by
  intro l
  induction l with
  | nil => intro a h; simp at h
  | cons x xs ih =>
    intro a h
    by_cases hx : p x
    · rw [List.filter_cons_of_pos hx] at h
      have hxa : x = a := List.head_eq_of_cons_eq h
      rw [List.find?_cons_of_pos _ hx, hxa]
    · rw [List.filter_cons_of_neg (by simpa using hx)] at h
      rw [List.find?_cons_of_neg _ (by simpa using hx)]
      exact ih a h

theorem mem_of_getElem?_eq_some {α : Type} {l : List α} {n : Nat} {a : α}
    (h : l[n]? = some a) : a ∈ l := by
  have : n < l.length := by
    by_contra hn
    rw [List.getElem?_eq_none (by omega)] at h
    exact Option.noConfusion h
  rw [List.getElem?_eq_getElem this] at h
  exact Option.some_injective _ h ▸ List.getElem_mem this

/-- Every option the resolver returns is drawn from the option list (there is
no `Ambiguous` marker value: the ambiguous branch itself returns a member). -/
theorem fuzzyStage_mem (opts : List Opt) (s : String) (o : Opt)
    (h : fuzzyStage opts s = some o) : o ∈ opts := by
  unfold fuzzyStage at h
  rcases hb : fuzzyBest (opts.map (fun o => o.text)) s with _ | b
  · rw [hb] at h; exact Option.noConfusion h
  · rw [hb] at h
    exact List.mem_of_find?_eq_some h

/-- Every option the resolver returns is drawn from the option list (there is
no `Ambiguous` marker value: the ambiguous branch itself returns a member). -/
theorem resolve_mem (opts : List Opt) (input choice : String) (o : Opt)
    (h : resolve opts input choice = some o) : o ∈ opts := by
  unfold resolve at h
  by_cases hne : input = ""
  · simp [hne] at h
  · rw [if_neg hne] at h
    rcases hc : codeStage opts (pyStrip input) with _ | oc
    · simp only [hc] at h
      rcases hl : labelStage opts (pyStrip input) with _ | ol
      · simp only [hl] at h
        by_cases h1 : (substrCandidates opts (pyStrip input)).length = 1
        · rw [if_pos h1] at h
          exact List.mem_of_mem_filter (mem_of_getElem?_eq_some h)
        · rw [if_neg h1] at h
          by_cases h2 : (substrCandidates opts (pyStrip input)).length > 1
          · rw [if_pos h2] at h
            unfold ambiguousBranch at h
            rcases hint : pyInt (pyStrip choice) with _ | n
            · simp only [hint] at h
              exact List.mem_of_mem_filter (mem_of_getElem?_eq_some h)
            · simp only [hint] at h
              by_cases hrange :
                  0 ≤ n - 1 ∧ n - 1 < ((substrCandidates opts (pyStrip input)).length : Int)
              · rw [if_pos hrange] at h
                exact List.mem_of_mem_filter (mem_of_getElem?_eq_some h)
              · rw [if_neg hrange] at h
                exact fuzzyStage_mem _ _ _ h
          · rw [if_neg h2] at h
            exact fuzzyStage_mem _ _ _ h
      · simp only [hl] at h
        injection h with h'
        exact h' ▸ List.mem_of_find?_eq_some hl
    · simp only [hc] at h
      injection h with h'
      exact h' ▸ List.mem_of_find?_eq_some hc

theorem isSubList_nil (l : List Char) : isSubList [] l = true := by
  cases l <;> simp [isSubList, List.isPrefixOf]

/-! ## Claim C1 -/

/-- C1: `download_entire_cause_list` classifies a response whose body parses
as JSON with a recognized PDF-URL field (`pdfUrl`, `pdf_url`,
`cause_list_pdf`, `pdf`) as a pdf success, even when the body also contains a
blocking-banner substring such as "oops": the JSON-PDF check runs before the
banner scan, which runs before the pdf-anchor check, which runs before the
table check. -/
theorem c1_json_pdf_before_banner (r : Response) :
    (∀ j u, r.jsonFields = some j → jsonPdfUrl j = some u →
      classifyStep r = .gotPdfJson (absolutize u)) ∧
    (jsonPdf r = none → tryCloseInHtml r.text = true → classifyStep r = .banner) ∧
    (∀ h, jsonPdf r = none → tryCloseInHtml r.text = false →
      firstPdfAnchor r.anchors = some h →
      classifyStep r = .gotPdfAnchor (absolutize h)) ∧
    (jsonPdf r = none → tryCloseInHtml r.text = false →
      firstPdfAnchor r.anchors = none →
      classifyStep r = .savedHtml (htmlFallback r)) := by
  refine ⟨?_, ?_, ?_, ?_⟩
  · intro j u hj hu
    unfold classifyStep jsonPdf
    simp [hj, hu]
  · intro hn hb
    unfold classifyStep
    simp [hn, hb]
  · intro h hn hb ha
    unfold classifyStep
    simp [hn, hb, ha]
  · intro hn hb ha
    unfold classifyStep
    simp [hn, hb, ha]

/-- A JSON response with a pdf field whose body also contains "oops" and even
a table: used to witness C1. -/
def bannerJsonResp : Response :=
  { jsonFields := some [("status", "oops please try again"), ("pdf_url", "x.pdf")]
    text := "status oops please try again pdf_url x.pdf"
    anchors := [some "report.pdf"]
    tablesHtml := "<table></table>"
    bodyInner := none }

theorem c1_witness :
    tryCloseInHtml bannerJsonResp.text = true ∧
    classifyStep bannerJsonResp =
      .gotPdfJson "https://services.ecourts.gov.in/ecourtindia_v6/x.pdf" := by
  constructor
  · decide
  · have h := (c1_json_pdf_before_banner bannerJsonResp).1
      [("status", "oops please try again"), ("pdf_url", "x.pdf")] "x.pdf" rfl (by decide)
    rw [h]
    decide

/-! ## Claim C2 -/

/-- C2 (amended): when the input is non-empty, does not exactly equal any
option's code, and exactly one option's label case-insensitively equals the
stripped input, the resolver returns that option — regardless of substring or
fuzzy candidates also present.  (The un-amended claim omits the code-match
guard: stage 1 of `_resolve_name_or_code` matches `o["value"]` before any
label comparison, so an input equal to another option's code wins first; see
`c2_counterexample`.) -/
theorem c2_exact_label_match_priority (opts : List Opt) (input choice : String)
    (o : Opt) (hne : input ≠ "")
    (hcode : ∀ o' ∈ opts, o'.value ≠ pyStrip input)
    (hlabel : opts.filter (fun o' => pyLower o'.text == pyLower (pyStrip input)) = [o]) :
    resolve opts input choice = some o := by
  unfold resolve
  rw [if_neg hne]
  have hc : codeStage opts (pyStrip input) = none := by
    rw [codeStage, List.find?_eq_none]
    intro x hx
    simpa using hcode x hx
  have hl : labelStage opts (pyStrip input) = some o :=
    find?_of_filter_eq_singleton _ _ _ hlabel
  simp [hc, labelStage] at hl ⊢
  simp [hc, hl]

/-- C2 counterexample: the input "A" equals the first option's code while
exactly one option's label ("a") case-insensitively equals it; the resolver
returns the code match, not the label match. -/
theorem c2_counterexample :
    ([⟨"A", "X"⟩, ⟨"2", "a"⟩] : List Opt).filter
        (fun o' => pyLower o'.text == pyLower (pyStrip "A")) = [⟨"2", "a"⟩] ∧
    resolve [⟨"A", "X"⟩, ⟨"2", "a"⟩] "A" "" = some ⟨"A", "X"⟩ ∧
    (⟨"A", "X"⟩ : Opt) ≠ ⟨"2", "a"⟩ := by decide

theorem c2_witness :
    resolve [⟨"9", "Pune District Court"⟩, ⟨"10", "pune"⟩] "Pune" "" =
      some ⟨"10", "pune"⟩ :=
  c2_exact_label_match_priority _ _ "" _ (by decide) (by decide) (by decide)

/-! ## Claim C3 -/

/-- C3 (amended): when the substring stage yields more than one candidate the
resolver prints the candidates and prompts; an empty or non-numeric reply
selects the *first* candidate, an in-range number selects that candidate, an
out-of-range number falls through to the fuzzy stage, and the result — when
some — is always a member of the option list.  There is no `Ambiguous` result
value: the un-amended claim's "returns Ambiguous(candidates) rather than
choosing" is refuted by `c3_counterexample`, where an empty reply silently
picks the first candidate. -/
theorem c3_ambiguous_prompt_behavior (opts : List Opt) (input choice : String)
    (hne : input ≠ "")
    (hcode : codeStage opts (pyStrip input) = none)
    (hlabel : labelStage opts (pyStrip input) = none)
    (hsub : (substrCandidates opts (pyStrip input)).length > 1) :
    (pyInt (pyStrip choice) = none →
      resolve opts input choice = (substrCandidates opts (pyStrip input))[0]?) ∧
    (∀ n : Int, pyInt (pyStrip choice) = some n →
      0 ≤ n - 1 → n - 1 < ((substrCandidates opts (pyStrip input)).length : Int) →
      resolve opts input choice =
        (substrCandidates opts (pyStrip input))[(n - 1).toNat]?) ∧
    (∀ n : Int, pyInt (pyStrip choice) = some n →
      ¬(0 ≤ n - 1 ∧ n - 1 < ((substrCandidates opts (pyStrip input)).length : Int)) →
      resolve opts input choice = fuzzyStage opts (pyStrip input)) ∧
    (∀ o, resolve opts input choice = some o → o ∈ opts) := by
  have hr : resolve opts input choice =
      ambiguousBranch opts (pyStrip input)
        (substrCandidates opts (pyStrip input)) choice := by
    unfold resolve
    rw [if_neg hne]
    simp only [hcode, hlabel]
    rw [if_neg (by omega), if_pos hsub]
  refine ⟨?_, ?_, ?_, fun o h => resolve_mem _ _ _ _ h⟩
  · intro hn
    rw [hr]; unfold ambiguousBranch; simp [hn]
  · intro n hn h0 hlen
    rw [hr]; unfold ambiguousBranch; simp only [hn]
    rw [if_pos ⟨h0, hlen⟩]
  · intro n hn hcond
    rw [hr]; unfold ambiguousBranch; simp only [hn]
    rw [if_neg hcond]

/-- C3 counterexample: two substring candidates, the operator presses Enter
(empty reply): the resolver silently returns the first candidate instead of an
ambiguous result. -/
theorem c3_counterexample :
    (substrCandidates [⟨"1", "Alpha One"⟩, ⟨"2", "Alpha Two"⟩]
        (pyStrip "Alpha")).length = 2 ∧
    resolve [⟨"1", "Alpha One"⟩, ⟨"2", "Alpha Two"⟩] "Alpha" "" =
      some ⟨"1", "Alpha One"⟩ := by decide

theorem c3_witness :
    resolve [⟨"1", "Alpha One"⟩, ⟨"2", "Alpha Two"⟩] "Alpha" "" =
      (substrCandidates [⟨"1", "Alpha One"⟩, ⟨"2", "Alpha Two"⟩] (pyStrip "Alpha"))[0]? :=
  (c3_ambiguous_prompt_behavior [⟨"1", "Alpha One"⟩, ⟨"2", "Alpha Two"⟩] "Alpha" ""
    (by decide) (by decide) (by decide) (by decide)).1 (by decide)

/-! ## Claim C4 -/

/-- C4 (amended): an *empty* input always yields `None`, and an empty option
list always yields `None`; but a *blank* (whitespace-only) input is stripped
to the empty string, which substring-matches every label, so with exactly one
option the resolver returns that option rather than `None` (see
`c4_counterexample`).  The embedded resolver is a pure function of its
arguments and leaves the option list untouched, which this statement reflects
by construction. -/
theorem c4_blank_input_behavior (opts : List Opt) (input choice : String) (o : Opt) :
    resolve opts "" choice = none ∧
    resolve [] input choice = none ∧
    (pyStrip input = "" → input ≠ "" → resolve [o] input choice = some o) := by
  refine ⟨by simp [resolve], ?_, ?_⟩
  · by_cases hne : input = ""
    · simp [resolve, hne]
    · unfold resolve
      rw [if_neg hne]
      simp [codeStage, labelStage, substrCandidates, fuzzyStage, fuzzyBest]
  · intro hblank hne
    unfold resolve
    rw [if_neg hne, hblank]
    rcases hcv : codeStage [o] "" with _ | oc
    · rcases hlb : labelStage [o] "" with _ | ol
      · have hpred : strContains (pyLower o.text) (pyLower "") = true := by
          unfold strContains
          exact isSubList_nil _
        have hsubs : substrCandidates [o] "" = [o] := by
          simp [substrCandidates, List.filter_cons, hpred]
        simp only [hcv, hlb, hsubs]
        simp
      · have hmem := List.mem_of_find?_eq_some hlb
        simp only [List.mem_singleton] at hmem
        simp only [hcv, hlb, hmem]
    · have hmem := List.mem_of_find?_eq_some hcv
      simp only [List.mem_singleton] at hmem
      simp only [hcv, hmem]

/-- C4 counterexample: a whitespace-only input on a one-option list resolves
to that option instead of `NotFound`. -/
theorem c4_counterexample :
    pyStrip " " = "" ∧ resolve [⟨"1", "X"⟩] " " "" = some ⟨"1", "X"⟩ := by decide

theorem c4_witness :
    resolve [⟨"7", "Bombay High Court"⟩] "  " "" = some ⟨"7", "Bombay High Court"⟩ :=
  (c4_blank_input_behavior [⟨"7", "Bombay High Court"⟩] "  " ""
    ⟨"7", "Bombay High Court"⟩).2.2 (by decide) (by decide)

/-! ## Claim C10 -/

/-- The placeholder values named by the claim. -/
def placeholderValues : List String := ["0", "select", "null"]

/-- C10: every option kept by `_parse_select_options` has a non-empty code
whose lower-case form is none of the placeholder values `"0"`, `"select"`,
`"null"`; consequently an input that strips and lowers to a placeholder value
can never resolve through the exact-code stage of `_resolve_name_or_code`. -/
theorem c10_no_placeholder_codes (soup : List Sel) (cands : List String) :
    (∀ o ∈ parseSelectOptions soup cands,
      o.value ≠ "" ∧ pyLower o.value ∉ placeholderValues) ∧
    (∀ s, pyLower (pyStrip s) ∈ placeholderValues →
      codeStage (parseSelectOptions soup cands) (pyStrip s) = none) := by
  have hmem : ∀ o ∈ parseSelectOptions soup cands,
      o.value ≠ "" ∧ pyLower o.value ∉ placeholderValues := by
    induction cands with
    | nil => intro o ho; simp [parseSelectOptions] at ho
    | cons n rest ih =>
      intro o ho
      unfold parseSelectOptions at ho
      rcases hf : findSel soup n with _ | sel
      · simp only [hf] at ho
        exact ih o ho
      · simp only [hf] at ho
        by_cases he : (keptOptions sel).isEmpty
        · rw [if_pos he] at ho
          exact ih o ho
        · rw [if_neg he] at ho
          unfold keptOptions at ho
          rcases List.mem_filterMap.mp ho with ⟨raw, _, hraw⟩
          by_cases hcond : pyStrip (raw.value.getD "") ≠ "" ∧
              pyLower (pyStrip (raw.value.getD "")) ∉ ["0", "select", "null", ""]
          · rw [if_pos hcond] at hraw
            cases hraw
            refine ⟨hcond.1, fun hin => hcond.2 ?_⟩
            simp only [placeholderValues, List.mem_cons, List.not_mem_nil] at hin
            simp only [List.mem_cons, List.not_mem_nil]
            tauto
          · rw [if_neg hcond] at hraw
            exact absurd hraw (by simp)
  refine ⟨hmem, ?_⟩
  intro s hs
  rw [codeStage, List.find?_eq_none]
  intro x hx
  have hx' := hmem x hx
  simp only [beq_iff_eq]
  intro heq
  exact hx'.2 (heq ▸ hs)

/-- A landing page with one state select carrying placeholder options: used to
witness C10. -/
def sampleSoup : List Sel :=
  [⟨some "state_code", none,
    [⟨some "0", some "Select State"⟩, ⟨some " null ", some "placeholder"⟩,
     ⟨some "5", some "Maharashtra"⟩, ⟨none, some "broken option"⟩]⟩]

theorem c10_witness :
    parseSelectOptions sampleSoup ["state_code"] = [⟨"5", "Maharashtra"⟩] ∧
    pyLower (pyStrip " SELECT ") ∈ placeholderValues ∧
    codeStage (parseSelectOptions sampleSoup ["state_code"]) (pyStrip " SELECT ") = none ∧
    ((⟨"5", "Maharashtra"⟩ : Opt).value ≠ "" ∧
      pyLower (⟨"5", "Maharashtra"⟩ : Opt).value ∉ placeholderValues) := by
  refine ⟨by decide, by decide, ?_, ?_⟩
  · exact (c10_no_placeholder_codes sampleSoup ["state_code"]).2 " SELECT " (by decide)
  · exact (c10_no_placeholder_codes sampleSoup ["state_code"]).1
      ⟨"5", "Maharashtra"⟩ (by decide)

/-! ## Claims C5, C6, C7: the retry loops -/

theorem runDownloadAux_all_payload (responses : Nat → PostResult) (payload : Payload) :
    ∀ fuel attempt subs sleeps, (∀ p ∈ subs, p = payload) →
      ∀ p ∈ (runDownloadAux responses payload fuel attempt subs sleeps).submissions,
        p = payload := by
  intro fuel
  induction fuel with
  | zero =>
    intro attempt subs sleeps hsubs p hp
    simp only [runDownloadAux, List.mem_reverse] at hp
    exact hsubs p hp
  | succ f ih =>
    intro attempt subs sleeps hsubs p hp
    have hsubs' : ∀ q ∈ payload :: subs, q = payload := by
      intro q hq
      rcases List.mem_cons.mp hq with h | h
      · exact h
      · exact hsubs q h
    unfold runDownloadAux at hp
    rcases hres : responses (attempt + 1) with _ | r
    · rw [hres] at hp
      exact ih (attempt + 1) (payload :: subs) (8 * (attempt + 1) :: sleeps) hsubs' p hp
    · rw [hres] at hp
      rcases hcl : classifyStep r with u | _ | u | c <;> simp only [hcl] at hp
      · simp only [List.mem_reverse] at hp
        exact hsubs' p hp
      · exact ih (attempt + 1) (payload :: subs) (6 * (attempt + 1) :: sleeps) hsubs' p hp
      · simp only [List.mem_reverse] at hp
        exact hsubs' p hp
      · simp only [List.mem_reverse] at hp
        exact hsubs' p hp

/-- C5 (amended): the captcha text is obtained once per (court, cicri) pass,
*before* the retry loop, and every submission made by the loop — including
every retry after a network failure or banner — re-POSTs that same payload
with that same captcha text.  The un-amended claim (fresh captcha per retry,
a captcha text used at most once) is refuted by `c5_counterexample`, in which
one banner retry makes two submissions carrying the same captcha text. -/
theorem c5_captcha_reused_across_retries (responses : Nat → PostResult) (maxR : Nat)
    (fields : List (String × String)) (cicri captcha : String) :
    ∀ p ∈ (runDownloadLoop responses maxR (mkPayload fields cicri captcha)).submissions,
      p = mkPayload fields cicri captcha ∧ p.captcha = captcha := by
  intro p hp
  have h := runDownloadAux_all_payload responses (mkPayload fields cicri captcha)
    maxR 0 [] [] (by intro q hq; simp at hq) p hp
  exact ⟨h, by rw [h]; rfl⟩

/-- A banner-only response (retried by the download loop). -/
def bannerResp : Response :=
  { jsonFields := none
    text := "oops please try once again"
    anchors := []
    tablesHtml := ""
    bodyInner := none }

/-- A plain table response (terminal for the download loop). -/
def plainHtmlResp : Response :=
  { jsonFields := none
    text := "<table>rows</table>"
    anchors := []
    tablesHtml := "<table>rows</table>"
    bodyInner := some "<table>rows</table>" }

/-- Attempt 1 hits a banner, attempt 2 succeeds with a table. -/
def c5Responses : Nat → PostResult :=
  fun a => if a = 1 then .ok bannerResp else .ok plainHtmlResp

/-- C5 counterexample: after a banner (`Transient`) outcome the loop re-POSTs
the *same* payload, so the same captcha text is submitted twice — refuting
"a given captcha text value is used for at most one submission and is never
reused across attempts". -/
theorem c5_counterexample :
    ((runDownloadLoop c5Responses 3 (mkPayload [] "civ" "zx7kq")).submissions.map
        (fun p => p.captcha)) = ["zx7kq", "zx7kq"] ∧
    ¬ ((runDownloadLoop c5Responses 3 (mkPayload [] "civ" "zx7kq")).submissions.map
        (fun p => p.captcha)).Nodup := by decide

theorem c5_witness :
    mkPayload [] "civ" "zx7kq" = mkPayload [] "civ" "zx7kq" ∧
      (mkPayload [] "civ" "zx7kq").captcha = "zx7kq" :=
  c5_captcha_reused_across_retries c5Responses 3 [] "civ" "zx7kq"
    (mkPayload [] "civ" "zx7kq") (by decide)

theorem runDownloadAux_length_le (responses : Nat → PostResult) (payload : Payload) :
    ∀ fuel attempt subs sleeps,
      (runDownloadAux responses payload fuel attempt subs sleeps).submissions.length ≤
        subs.length + fuel := by
  intro fuel
  induction fuel with
  | zero =>
    intro attempt subs sleeps
    simp [runDownloadAux]
  | succ f ih =>
    intro attempt subs sleeps
    unfold runDownloadAux
    rcases hres : responses (attempt + 1) with _ | r <;> simp only [hres]
    · have := ih (attempt + 1) (payload :: subs) (8 * (attempt + 1) :: sleeps)
      simp only [List.length_cons] at this
      omega
    · rcases hcl : classifyStep r with u | _ | u | c <;> simp only [hcl]
      · simp
      · have := ih (attempt + 1) (payload :: subs) (6 * (attempt + 1) :: sleeps)
        simp only [List.length_cons] at this
        omega
      · simp
      · simp

theorem runSubmitAux_length_le (responses : Nat → PostResult) (payload : Payload) :
    ∀ fuel attempt subs sleeps,
      (runSubmitAux responses payload fuel attempt subs sleeps).submissions.length ≤
        subs.length + fuel := by
  intro fuel
  induction fuel with
  | zero =>
    intro attempt subs sleeps
    simp [runSubmitAux]
  | succ f ih =>
    intro attempt subs sleeps
    unfold runSubmitAux
    rcases hres : responses (attempt + 1) with _ | r <;> simp only [hres]
    · have := ih (attempt + 1) (payload :: subs) (6 * (attempt + 1) :: sleeps)
      simp only [List.length_cons] at this
      omega
    · rcases hcl : classifySubmit r with u | _ | u | c <;> simp only [hcl] <;> simp

/-- The backoff trace a run of all-transient attempts leaves behind, starting
after `attempt` submissions: one sleep of `base * attempt_number` per retry
(`0.8` s for a network failure, `0.6` s for a banner, in tenths). -/
def transientSleeps (responses : Nat → PostResult) (attempt : Nat) : Nat → List Nat
  | 0 => []
  | f + 1 =>
    transientDelay (responses (attempt + 1)) * (attempt + 1) ::
      transientSleeps responses (attempt + 1) f

theorem transientSleeps_getElem (responses : Nat → PostResult) :
    ∀ f attempt k, k < f →
      (transientSleeps responses attempt f)[k]? =
        some (transientDelay (responses (attempt + k + 1)) * (attempt + k + 1)) := by
  intro f
  induction f with
  | zero => intro attempt k hk; omega
  | succ f ih =>
    intro attempt k hk
    rcases k with _ | k
    · simp [transientSleeps]
    · have harr : attempt + 1 + k + 1 = attempt + (k + 1) + 1 := by omega
      have := ih (attempt + 1) k (by omega)
      simp only [transientSleeps, List.getElem?_cons_succ]
      rw [this, harr]

theorem runDownloadAux_transient (responses : Nat → PostResult) (payload : Payload) :
    ∀ fuel attempt subs sleeps,
      (∀ a, attempt < a → a ≤ attempt + fuel → isTransient (responses a) = true) →
      runDownloadAux responses payload fuel attempt subs sleeps =
        ⟨none, subs.reverse ++ List.replicate fuel payload,
          sleeps.reverse ++ transientSleeps responses attempt fuel⟩ := by
  intro fuel
  induction fuel with
  | zero =>
    intro attempt subs sleeps _
    simp [runDownloadAux, transientSleeps]
  | succ f ih =>
    intro attempt subs sleeps htr
    have htr1 : isTransient (responses (attempt + 1)) = true :=
      htr (attempt + 1) (by omega) (by omega)
    have htr' : ∀ a, attempt + 1 < a → a ≤ attempt + 1 + f →
        isTransient (responses a) = true := by
      intro a h1 h2
      exact htr a (by omega) (by omega)
    unfold runDownloadAux
    rcases hres : responses (attempt + 1) with _ | r
    · dsimp only
      rw [ih (attempt + 1) (payload :: subs) (8 * (attempt + 1) :: sleeps) htr']
      simp [transientSleeps, hres, transientDelay, List.append_assoc, List.replicate_succ]
    · dsimp only
      have hb : classifyStep r = .banner := by
        have := htr1
        rw [hres] at this
        simpa [isTransient] using this
      rw [hb]
      dsimp only
      rw [ih (attempt + 1) (payload :: subs) (6 * (attempt + 1) :: sleeps) htr']
      simp [transientSleeps, hres, transientDelay, List.append_assoc, List.replicate_succ]

/-- C6: both captcha-gated retry loops are bounded: they make at most
`max_retries_on_popup` submissions; and when every response is `Transient`
(network failure or banner) the download loop makes exactly `max_retries`
submissions with backoff `base_delay * attempt_number` between attempts
(base 0.8 s for a network failure, 0.6 s for a banner, recorded in tenths of
a second) and then terminates with no artifact — the failure result the
callers surface as a final error.  Termination is structural: the embedded
loops are total functions, so no retry loop is unbounded. -/
theorem c6_bounded_retries (responses : Nat → PostResult) (maxR : Nat)
    (payload : Payload) :
    (runDownloadLoop responses maxR payload).submissions.length ≤ maxR ∧
    (runSubmitLoop responses maxR payload).submissions.length ≤ maxR ∧
    ((∀ a, 1 ≤ a → a ≤ maxR → isTransient (responses a) = true) →
      (runDownloadLoop responses maxR payload).saved = none ∧
      (runDownloadLoop responses maxR payload).submissions.length = maxR ∧
      ∀ k, k < maxR →
        (runDownloadLoop responses maxR payload).sleeps[k]? =
          some (transientDelay (responses (k + 1)) * (k + 1))) := by
  refine ⟨?_, ?_, ?_⟩
  · have := runDownloadAux_length_le responses payload maxR 0 [] []
    simpa [runDownloadLoop] using this
  · have := runSubmitAux_length_le responses payload maxR 0 [] []
    simpa [runSubmitLoop] using this
  · intro htr
    have h := runDownloadAux_transient responses payload maxR 0 [] []
      (by intro a h1 h2; exact htr a (by omega) (by omega))
    rw [runDownloadLoop, h]
    refine ⟨rfl, by simp, ?_⟩
    intro k hk
    have := transientSleeps_getElem responses maxR 0 k hk
    simpa using this

/-- All responses are banners: used to witness C6. -/
def allBannerResponses : Nat → PostResult := fun _ => .ok bannerResp

theorem c6_witness :
    (runDownloadLoop allBannerResponses 3 (mkPayload [] "civ" "ab")).saved = none ∧
    (runDownloadLoop allBannerResponses 3 (mkPayload [] "civ" "ab")).submissions.length = 3 ∧
    (runDownloadLoop allBannerResponses 3 (mkPayload [] "civ" "ab")).sleeps[1]? = some 12 := by
  have h := (c6_bounded_retries allBannerResponses 3 (mkPayload [] "civ" "ab")).2.2
    (fun a _ _ => rfl)
  refine ⟨h.1, h.2.1, ?_⟩
  have := h.2.2 1 (by omega)
  rw [this]
  decide

/-- C7 (amended): a response that matches none of the classification rules —
no JSON pdf field, no blocking-banner substring, no pdf anchor, and no table
html — is *not* retried and *not* surfaced as an error: `download_entire_cause_list`
falls through to the table branch, substitutes the entire (untruncated) body
for the empty table concatenation, saves it as the html artifact, and breaks
out of the loop on the very first attempt.  The un-amended claim ("retried
once and then surfaced as a final error carrying the truncated raw body") is
refuted by `c7_counterexample`. -/
theorem c7_unclassifiable_saved_first_attempt (r : Response)
    (responses : Nat → PostResult) (maxR : Nat) (payload : Payload)
    (hjson : jsonPdf r = none) (hban : tryCloseInHtml r.text = false)
    (hanchor : firstPdfAnchor r.anchors = none) (htab : pyStrip r.tablesHtml = "")
    (hfirst : responses 1 = .ok r) (hmax : 1 ≤ maxR) :
    runDownloadLoop responses maxR payload =
      ⟨some (.htmlFile (r.bodyInner.getD r.text)), [payload], []⟩ := by
  have hclass : classifyStep r = .savedHtml (r.bodyInner.getD r.text) := by
    unfold classifyStep htmlFallback
    simp [hjson, hban, hanchor, htab]
  rcases maxR with _ | m
  · omega
  · unfold runDownloadLoop runDownloadAux
    rw [show (0 : Nat) + 1 = 1 from rfl, hfirst]
    dsimp only
    rw [hclass]
    dsimp only
    rfl

/-- A response with no JSON pdf, no banner text, no pdf anchor and no table. -/
def unclassifiableResp : Response :=
  { jsonFields := none
    text := "hello nothing recognisable here"
    anchors := [some "page.html", none]
    tablesHtml := " "
    bodyInner := some "hello nothing recognisable here inner" }

/-- C7 counterexample: on an unclassifiable response the loop saves the whole
body as the html artifact after exactly one attempt — it neither retries once
nor surfaces an error. -/
theorem c7_counterexample :
    runDownloadLoop (fun _ => .ok unclassifiableResp) 3 (mkPayload [] "civ" "pq") =
      ⟨some (.htmlFile "hello nothing recognisable here inner"),
        [mkPayload [] "civ" "pq"], []⟩ := by decide

theorem c7_witness :
    runDownloadLoop (fun _ => .ok unclassifiableResp) 2 (mkPayload [] "cri" "zz") =
      ⟨some (.htmlFile "hello nothing recognisable here inner"),
        [mkPayload [] "cri" "zz"], []⟩ :=
  (c7_unclassifiable_saved_first_attempt unclassifiableResp
      (fun _ => .ok unclassifiableResp) 2 (mkPayload [] "cri" "zz")
      (by decide) (by decide) (by decide) (by decide) rfl (by omega)).trans
    (by decide)

/-! ## Claim C9 -/

theorem flushSection_nonempty (st : CLState)
    (h : ∀ sec ∈ st.sections, sec.cases ≠ []) :
    ∀ sec ∈ (flushSection st).sections, sec.cases ≠ [] := by
  intro sec hsec
  unfold flushSection at hsec
  rcases hn : st.name with _ | n
  · rw [hn] at hsec
    exact h sec hsec
  · rw [hn] at hsec
    dsimp only at hsec
    by_cases hc : n ≠ "" ∧ st.cases ≠ []
    · rw [if_pos hc] at hsec
      rcases List.mem_append.mp hsec with hold | hnew
      · exact h sec hold
      · simp only [List.mem_singleton] at hnew
        rw [hnew]
        exact hc.2
    · rw [if_neg hc] at hsec
      exact h sec hsec

theorem caseCheck_sections (st : CLState) (row : Row) :
    (caseCheck st row).sections = st.sections := by
  unfold caseCheck
  rcases row.cells with _ | ⟨c0, _ | ⟨c1, _ | ⟨c2, _ | ⟨c3, rest⟩⟩⟩⟩ <;> first
    | rfl
    | (dsimp only; split <;> rfl)

theorem stepRow_nonempty (st : CLState) (row : Row)
    (h : ∀ sec ∈ st.sections, sec.cases ≠ []) :
    ∀ sec ∈ (stepRow st row).sections, sec.cases ≠ [] := by
  intro sec hsec
  unfold stepRow at hsec
  rcases hc : row.cells with _ | ⟨c0, rest⟩
  · rw [hc] at hsec
    exact h sec hsec
  · rw [hc] at hsec
    dsimp only at hsec
    by_cases hhd : (c0 :: rest).length = 1 ∨ row.styled
    · rw [if_pos hhd] at hsec
      by_cases htxt : c0.textSpace ≠ "" ∧ c0.textSpace ∉ ["-", "hr", "HR"]
      · rw [if_pos htxt] at hsec
        dsimp only at hsec
        exact flushSection_nonempty st h sec hsec
      · rw [if_neg htxt] at hsec
        rw [show (caseCheck st row).sections = st.sections from caseCheck_sections st row ▸ rfl] at hsec
        exact h sec hsec
    · rw [if_neg hhd] at hsec
      rw [show (caseCheck st row).sections = st.sections from caseCheck_sections st row ▸ rfl] at hsec
      exact h sec hsec

theorem parseAux_nonempty :
    ∀ (rows : List Row) (st : CLState), (∀ sec ∈ st.sections, sec.cases ≠ []) →
      ∀ sec ∈ (flushSection (rows.foldl stepRow st)).sections, sec.cases ≠ [] := by
  intro rows
  induction rows with
  | nil =>
    intro st h
    exact flushSection_nonempty st h
  | cons row rest ih =>
    intro st h
    rw [List.foldl_cons]
    exact ih (stepRow st row) (stepRow_nonempty st row h)

theorem stepRow_filler (st : CLState) (filler : Row) (c : Cell)
    (hc : filler.cells = [c]) (ht : c.textSpace = "-" ∨ c.textSpace = "hr") :
    stepRow st filler = st := by
  unfold stepRow
  rw [hc]
  dsimp only
  rw [if_pos (show ([c] : List Cell).length = 1 ∨ filler.styled = true from Or.inl rfl)]
  have htxt : ¬(c.textSpace ≠ "" ∧ c.textSpace ∉ ["-", "hr", "HR"]) := by
    rcases ht with ht | ht <;> rw [ht] <;> simp
  rw [if_neg htxt]
  unfold caseCheck
  rw [hc]

/-- A plain-text table cell: its three BeautifulSoup observations coincide. -/
def plainCell (s : String) : Cell := ⟨s, s, s⟩

/-- The "Civil Cases" header row of the C9 scenario. -/
def civilHeaderRow : Row := ⟨[plainCell "Civil Cases"], false⟩

/-- A trailing header row with no case rows after it. -/
def trailingHeaderRow : Row := ⟨[plainCell "Criminal Cases"], false⟩

/-- A filler header row (`"-"`). -/
def fillerRow : Row := ⟨[plainCell "-"], false⟩

/-- First valid case row of the C9 scenario. -/
def sampleCaseRow1 : Row :=
  ⟨[plainCell "1", plainCell "RCC/101/2025 View", plainCell "A versus B",
    plainCell "Adv X<br>Adv Y"], false⟩

/-- Second valid case row of the C9 scenario. -/
def sampleCaseRow2 : Row :=
  ⟨[plainCell "2", plainCell "SCC/77/2024 View", plainCell "C versus D",
    plainCell "Adv Z"], false⟩

/-- The parse of `sampleCaseRow1`. -/
def expectedCase1 : CLCase :=
  ⟨"1", "RCC/101/2025", "A", "B", ["Adv X", "Adv Y"], "A versus B", "Adv X\nAdv Y"⟩

/-- The parse of `sampleCaseRow2`. -/
def expectedCase2 : CLCase :=
  ⟨"2", "SCC/77/2024", "C", "D", ["Adv Z"], "C versus D", "Adv Z"⟩

/-- C9: `parse_cause_list_html` appends a section to the output only when it
has at least one case.  On a header row "Civil Cases" followed by two valid
case rows and a trailing header row with no case rows after it, the result is
exactly one section with those two cases, the trailing empty section being
absent; the same document without the trailing header gives the same result
(the pending section is flushed at end of input); every section of any parse
output has at least one case; and a filler header row (`"-"`, `"hr"`) never
starts a section — deleting it anywhere leaves the parse unchanged. -/
theorem c9_sections_flushed_only_with_cases (rows pre post : List Row)
    (filler : Row) (c : Cell) :
    parseCauseListRows
        [civilHeaderRow, sampleCaseRow1, sampleCaseRow2, trailingHeaderRow] =
      [⟨"Civil Cases", [expectedCase1, expectedCase2]⟩] ∧
    parseCauseListRows [civilHeaderRow, sampleCaseRow1, sampleCaseRow2] =
      [⟨"Civil Cases", [expectedCase1, expectedCase2]⟩] ∧
    (∀ sec ∈ parseCauseListRows rows, sec.cases ≠ []) ∧
    (filler.cells = [c] → (c.textSpace = "-" ∨ c.textSpace = "hr") →
      parseCauseListRows (pre ++ filler :: post) = parseCauseListRows (pre ++ post)) := by
  refine ⟨by decide, by decide, ?_, ?_⟩
  · intro sec hsec
    exact parseAux_nonempty rows ⟨[], none, []⟩ (by intro s hs; simp at hs) sec hsec
  · intro hc ht
    unfold parseCauseListRows
    rw [List.foldl_append, List.foldl_append, List.foldl_cons,
      stepRow_filler _ filler c hc ht]

theorem c9_witness :
    (⟨"Civil Cases", [expectedCase1, expectedCase2]⟩ : CLSection).cases ≠ [] ∧
    parseCauseListRows ([civilHeaderRow] ++ fillerRow :: [sampleCaseRow1]) =
      parseCauseListRows ([civilHeaderRow] ++ [sampleCaseRow1]) := by
  constructor
  · exact (c9_sections_flushed_only_with_cases
      [civilHeaderRow, sampleCaseRow1, sampleCaseRow2, trailingHeaderRow]
      [] [] fillerRow (plainCell "-")).2.2.1
      ⟨"Civil Cases", [expectedCase1, expectedCase2]⟩ (by decide)
  · exact (c9_sections_flushed_only_with_cases [] [civilHeaderRow] [sampleCaseRow1]
      fillerRow (plainCell "-")).2.2.2 rfl (Or.inl rfl)

/-! ## Claim C8: helper lemmas on whitespace runs -/

/-- Strip the trailing whitespace run (Python `str.rstrip()` on a list). -/
def rstripWs (cs : List Char) : List Char :=
  (cs.reverse.dropWhile pyIsSpaceChar).reverse

theorem takeWhile_append_of_all {p : Char → Bool} :
    ∀ (l t : List Char), l.all p = true →
      (l ++ t).takeWhile p = l ++ t.takeWhile p := by
  intro l t
  induction l with
  | nil => intro _; rfl
  | cons c l' ih =>
    intro h
    rw [List.all_cons, Bool.and_eq_true] at h
    rw [List.cons_append, List.takeWhile_cons_of_pos h.1, ih h.2, List.cons_append]

theorem takeWhile_eq_self_of_all {p : Char → Bool} :
    ∀ (l : List Char), l.all p = true → l.takeWhile p = l := by
  intro l
  induction l with
  | nil => intro _; rfl
  | cons c l' ih =>
    intro h
    rw [List.all_cons, Bool.and_eq_true] at h
    rw [List.takeWhile_cons_of_pos h.1, ih h.2]

theorem dropWhile_append_of_all {p : Char → Bool} :
    ∀ (l t : List Char), l.all p = true →
      (l ++ t).dropWhile p = t.dropWhile p := by
  intro l t
  induction l with
  | nil => intro _; rfl
  | cons c l' ih =>
    intro h
    rw [List.all_cons, Bool.and_eq_true] at h
    rw [List.cons_append, List.dropWhile_cons_of_pos h.1, ih h.2]

theorem dropWhile_append_of_any {p : Char → Bool} :
    ∀ (l t : List Char), l.any (fun c => !p c) = true →
      (l ++ t).dropWhile p = l.dropWhile p ++ t := by
  intro l t
  induction l with
  | nil => intro h; simp at h
  | cons c l' ih =>
    intro h
    by_cases hc : p c
    · rw [List.cons_append, List.dropWhile_cons_of_pos hc, List.dropWhile_cons_of_pos hc]
      apply ih
      rw [List.any_cons, hc] at h
      simpa using h
    · rw [List.cons_append, List.dropWhile_cons_of_neg hc, List.dropWhile_cons_of_neg hc,
        List.cons_append]

theorem dropWhile_idem {p : Char → Bool} :
    ∀ (l : List Char), (l.dropWhile p).dropWhile p = l.dropWhile p := by
  intro l
  induction l with
  | nil => rfl
  | cons c l' ih =>
    by_cases hc : p c
    · rw [List.dropWhile_cons_of_pos hc]
      exact ih
    · rw [List.dropWhile_cons_of_neg hc, List.dropWhile_cons_of_neg hc]

theorem head_not_ws_of_dropWhile_eq {c : Char} {l : List Char}
    (h : (c :: l).dropWhile pyIsSpaceChar = c :: l) : pyIsSpaceChar c = false := by
  by_contra hc
  rw [Bool.not_eq_false] at hc
  rw [List.dropWhile_cons_of_pos hc] at h
  have hle := (List.dropWhile_sublist (l := l) pyIsSpaceChar).length_le
  have := congrArg List.length h
  simp only [List.length_cons] at this
  omega

theorem rstripWs_eq_nil_of_all {l : List Char}
    (h : l.all pyIsSpaceChar = true) : rstripWs l = [] := by
  unfold rstripWs
  rw [List.dropWhile_eq_nil_iff.mpr]
  · rfl
  · intro x hx
    rw [List.all_eq_true] at h
    exact h x (List.mem_reverse.mp hx)

theorem rstripWs_cons_of_any {c : Char} {l : List Char}
    (h : (c :: l).any (fun x => !pyIsSpaceChar x) = true) :
    rstripWs (c :: l) = c :: rstripWs l := by
  unfold rstripWs
  rw [List.reverse_cons]
  by_cases hl : l.any (fun x => !pyIsSpaceChar x) = true
  · have hrev : l.reverse.any (fun x => !pyIsSpaceChar x) = true := by
      rw [List.any_reverse]
      exact hl
    rw [dropWhile_append_of_any _ _ hrev, List.reverse_append]
    rfl
  · have hall : l.reverse.all pyIsSpaceChar = true := by
      rw [List.all_reverse]
      rw [List.any_eq_true] at hl
      push_neg at hl
      rw [List.all_eq_true]
      intro x hx
      have := hl x hx
      simpa using this
    have hc : pyIsSpaceChar c = false := by
      rw [List.any_cons] at h
      rcases Bool.or_eq_true_iff.mp h with h' | h'
      · simpa using h'
      · exact absurd h' hl
    rw [dropWhile_append_of_all _ _ hall, List.dropWhile_cons_of_neg (by rw [hc]; simp),
      show List.dropWhile pyIsSpaceChar l.reverse = [] from
        List.dropWhile_eq_nil_iff.mpr (fun x hx => List.all_eq_true.mp hall x hx)]
    simp

theorem tryGroup_run {tail : List Char} (htail : judgeLeads tail = true)
    (hwstail : tail.dropWhile pyIsSpaceChar = tail) :
    ∀ (mid g : List Char), mid.all isClassChar = true →
      (∀ pre suf, mid = pre ++ suf → suf.any (fun c => !pyIsSpaceChar c) = true →
        judgeLeads (suf.dropWhile pyIsSpaceChar ++ tail) = false) →
      tryGroup g (mid ++ tail) = some (g ++ rstripWs mid, tail) := by
  rcases tail with _ | ⟨t0, ts⟩
  · exact absurd htail (by decide)
  · intro mid
    induction mid with
    | nil =>
      intro g _ _
      simp only [List.nil_append]
      unfold tryGroup
      simp only [dropWs, hwstail, htail, if_true]
      simp [rstripWs]
    | cons c mid' ih =>
      intro g hclass hocc
      rw [List.all_cons, Bool.and_eq_true] at hclass
      by_cases hallws : (c :: mid').all pyIsSpaceChar = true
      · have hdw : (c :: (mid' ++ t0 :: ts)).dropWhile pyIsSpaceChar = t0 :: ts := by
          rw [← List.cons_append, dropWhile_append_of_all _ _ hallws, hwstail]
        rw [List.cons_append]
        unfold tryGroup
        simp only [dropWs, hdw, htail, if_true]
        rw [rstripWs_eq_nil_of_all hallws]
        simp
      · have hany : (c :: mid').any (fun x => !pyIsSpaceChar x) = true := by
          rw [List.any_eq_true]
          by_contra hno
          push_neg at hno
          apply hallws
          rw [List.all_eq_true]
          intro x hx
          have := hno x hx
          simpa using this
        have hdw : (c :: (mid' ++ t0 :: ts)).dropWhile pyIsSpaceChar =
            (c :: mid').dropWhile pyIsSpaceChar ++ t0 :: ts := by
          rw [← List.cons_append, dropWhile_append_of_any _ _ hany]
        have hfail : judgeLeads ((c :: mid').dropWhile pyIsSpaceChar ++ t0 :: ts) = false :=
          hocc [] (c :: mid') rfl hany
        rw [List.cons_append]
        unfold tryGroup
        simp only [dropWs, hdw, hfail, if_false, Bool.false_eq_true]
        rw [if_pos hclass.1]
        have hocc' : ∀ pre suf, mid' = pre ++ suf →
            suf.any (fun c => !pyIsSpaceChar c) = true →
            judgeLeads (suf.dropWhile pyIsSpaceChar ++ t0 :: ts) = false := by
          intro pre suf heq hanys
          exact hocc (c :: pre) suf (by rw [heq, List.cons_append]) hanys
        rw [ih (g ++ [c]) hclass.2 hocc']
        rw [rstripWs_cons_of_any hany]
        simp

theorem searchJudge_run {name tail : List Char}
    (hname : name ≠ []) (hclass : name.all isClassChar = true)
    (hC : (name ++ tail).dropWhile pyIsSpaceChar = name ++ tail)
    (htail : judgeLeads tail = true)
    (hwstail : tail.dropWhile pyIsSpaceChar = tail)
    (hocc : ∀ k, k < name.length → 0 < k → judgeLeads (name.drop k ++ tail) = false) :
    searchJudge (name ++ tail) = some (rstripWs name, tail) := by
  rcases name with _ | ⟨n0, name'⟩
  · exact absurd rfl hname
  · have hn0 : pyIsSpaceChar n0 = false := by
      rw [List.cons_append] at hC
      exact head_not_ws_of_dropWhile_eq hC
    rw [List.all_cons, Bool.and_eq_true] at hclass
    have hocc' : ∀ pre suf, name' = pre ++ suf →
        suf.any (fun c => !pyIsSpaceChar c) = true →
        judgeLeads (suf.dropWhile pyIsSpaceChar ++ tail) = false := by
      intro pre suf heq hanys
      have hsplit : n0 :: name' =
          ((n0 :: pre) ++ suf.takeWhile pyIsSpaceChar) ++ suf.dropWhile pyIsSpaceChar := by
        rw [List.append_assoc, List.takeWhile_append_dropWhile, heq, List.cons_append]
      have hk : (n0 :: name').drop
            (((n0 :: pre) ++ suf.takeWhile pyIsSpaceChar).length) =
          suf.dropWhile pyIsSpaceChar := by
        conv_lhs => rw [hsplit]
        exact List.drop_left _ _
      have hne : suf.dropWhile pyIsSpaceChar ≠ [] := by
        intro hnil
        rw [List.dropWhile_eq_nil_iff] at hnil
        rw [List.any_eq_true] at hanys
        rcases hanys with ⟨x, hx, hxx⟩
        have := hnil x hx
        simp [this] at hxx
      have hklt : ((n0 :: pre) ++ suf.takeWhile pyIsSpaceChar).length <
          (n0 :: name').length := by
        have hlen := congrArg List.length hsplit
        rw [List.length_append] at hlen
        have hpos : 0 < (suf.dropWhile pyIsSpaceChar).length :=
          List.length_pos.mpr hne
        omega
      have hkpos : 0 < ((n0 :: pre) ++ suf.takeWhile pyIsSpaceChar).length := by
        simp only [List.length_append, List.length_cons]
        omega
      have := hocc _ hklt hkpos
      rw [hk] at this
      exact this
    rw [List.cons_append]
    unfold searchJudge
    rw [if_pos hclass.1]
    rw [tryGroup_run htail hwstail name' [n0] hclass.2 hocc']
    have hrst : rstripWs (n0 :: name') = n0 :: rstripWs name' :=
      rstripWs_cons_of_any (by rw [List.any_cons, hn0]; simp)
    rw [hrst]
    rfl

theorem dropWhile_eq_drop {p : Char → Bool} :
    ∀ (l : List Char), ∃ j, j ≤ l.length ∧ l.dropWhile p = l.drop j := by
  intro l
  induction l with
  | nil => exact ⟨0, by simp, rfl⟩
  | cons c t ih =>
    by_cases hc : p c
    · rcases ih with ⟨j, hj, hdrop⟩
      refine ⟨j + 1, ?_, ?_⟩
      · simp only [List.length_cons]
        omega
      · rw [List.dropWhile_cons_of_pos hc, List.drop_succ_cons, hdrop]
    · exact ⟨0, by simp, by rw [List.dropWhile_cons_of_neg hc, List.drop_zero]⟩

theorem tryGroup_none :
    ∀ (r g : List Char),
      (∀ k, k ≤ r.length → judgeLeads (r.drop k) = false) →
      tryGroup g r = none := by
  intro r
  induction r with
  | nil => intro g _; rfl
  | cons c r' ih =>
    intro g hno
    have hdw : judgeLeads (dropWs (c :: r')) = false := by
      rcases dropWhile_eq_drop (c :: r') with ⟨j, hj, hdrop⟩
      simp only [dropWs]
      rw [hdrop]
      exact hno j hj
    unfold tryGroup
    simp only [hdw, Bool.false_eq_true, if_false]
    by_cases hc : isClassChar c
    · rw [if_pos hc]
      apply ih
      intro k hk
      have := hno (k + 1) (by simp only [List.length_cons]; omega)
      simpa using this
    · rw [if_neg hc]

theorem searchJudge_none :
    ∀ (cs : List Char),
      (∀ k, k ≤ cs.length → judgeLeads (cs.drop k) = false) →
      searchJudge cs = none := by
  intro cs
  induction cs with
  | nil => intro _; rfl
  | cons c rest ih =>
    intro hno
    have ht : tryGroup [c] rest = none := by
      apply tryGroup_none
      intro k hk
      have := hno (k + 1) (by simp only [List.length_cons]; omega)
      simpa using this
    have hrest : searchJudge rest = none := by
      apply ih
      intro k hk
      have := hno (k + 1) (by simp only [List.length_cons]; omega)
      simpa using this
    unfold searchJudge
    by_cases hc : isClassChar c
    · rw [if_pos hc, ht]
      exact hrest
    · rw [if_neg hc]
      exact hrest

theorem serialMatch_canonical {d rest : List Char}
    (hd : d ≠ []) (hdall : d.all isDigitChar = true)
    (hA : (d ++ '-' :: rest).dropWhile pyIsSpaceChar = d ++ '-' :: rest)
    (hC : rest.dropWhile pyIsSpaceChar = rest)
    (hD : rest.all (fun c => c ≠ '\n') = true) :
    serialMatch (d ++ '-' :: rest) = some (d, rest) := by
  have htake : (d ++ '-' :: rest).takeWhile isDigitChar = d := by
    rw [takeWhile_append_of_all _ _ hdall, List.takeWhile_cons_of_neg (by decide)]
    simp
  have hdrop : (d ++ '-' :: rest).dropWhile isDigitChar = '-' :: rest := by
    rw [dropWhile_append_of_all _ _ hdall, List.dropWhile_cons_of_neg (by decide)]
  simp only [serialMatch]
  rw [hA, htake, hdrop]
  rw [if_neg (by simp only [List.isEmpty_iff]; exact hd)]
  rw [List.dropWhile_cons_of_neg (by decide)]
  dsimp only
  rw [if_pos rfl, hC, takeWhile_eq_self_of_all rest hD]

theorem rstripWs_idem (l : List Char) : rstripWs (rstripWs l) = rstripWs l := by
  unfold rstripWs
  rw [List.reverse_reverse, dropWhile_idem]

theorem stripList_via_rstrip (cs : List Char)
    (hA : cs.dropWhile pyIsSpaceChar = cs) : stripList cs = rstripWs cs := by
  unfold stripList rstripWs
  rw [hA]

theorem parseCourtName_judge {d name tail : List Char}
    (hd : d ≠ []) (hdall : d.all isDigitChar = true)
    (hname : name ≠ []) (hclass : name.all isClassChar = true)
    (htail : judgeLeads tail = true)
    (hwstail : tail.dropWhile pyIsSpaceChar = tail)
    (hC : (name ++ tail).dropWhile pyIsSpaceChar = name ++ tail)
    (hD : (name ++ tail).all (fun c => c ≠ '\n') = true)
    (hA : (d ++ '-' :: (name ++ tail)).dropWhile pyIsSpaceChar =
      d ++ '-' :: (name ++ tail))
    (hB : rstripWs (d ++ '-' :: (name ++ tail)) = d ++ '-' :: (name ++ tail))
    (hocc : ∀ k, k < name.length → 0 < k → judgeLeads (name.drop k ++ tail) = false) :
    parseCourtName ⟨d ++ '-' :: (name ++ tail)⟩ =
      ⟨some ⟨d⟩, pyTitle (pyStrip ⟨name⟩), some (pyStrip ⟨tail⟩)⟩ := by
  have hstrip : stripList (d ++ '-' :: (name ++ tail)) = d ++ '-' :: (name ++ tail) :=
    (stripList_via_rstrip _ hA).trans hB
  have hserial := serialMatch_canonical hd hdall hA hC hD
  have hsearch := searchJudge_run hname hclass hC htail hwstail hocc
  rcases hnm : name with _ | ⟨n0, name'⟩
  · exact absurd hnm hname
  · subst hnm
    have hn0 : pyIsSpaceChar n0 = false := by
      rw [List.cons_append] at hC
      exact head_not_ws_of_dropWhile_eq hC
    have hdwname : (n0 :: name').dropWhile pyIsSpaceChar = n0 :: name' :=
      List.dropWhile_cons_of_neg (by rw [hn0]; simp)
    have hrstcons : rstripWs (n0 :: name') = n0 :: rstripWs name' :=
      rstripWs_cons_of_any (by rw [List.any_cons, hn0]; simp)
    have hstripname : stripList (n0 :: name') = rstripWs (n0 :: name') :=
      stripList_via_rstrip _ hdwname
    have hstriprst : stripList (rstripWs (n0 :: name')) = rstripWs (n0 :: name') := by
      have hdwrst : (rstripWs (n0 :: name')).dropWhile pyIsSpaceChar =
          rstripWs (n0 :: name') := by
        rw [hrstcons]
        exact List.dropWhile_cons_of_neg (by rw [hn0]; simp)
      exact (stripList_via_rstrip _ hdwrst).trans (rstripWs_idem _)
    have hps : pyStrip ⟨rstripWs (n0 :: name')⟩ = pyStrip ⟨(n0 :: name')⟩ := by
      show (⟨stripList (rstripWs (n0 :: name'))⟩ : String) = ⟨stripList (n0 :: name')⟩
      rw [hstriprst, hstripname]
    simp only [parseCourtName]
    rw [show (pyStrip ⟨d ++ '-' :: (n0 :: name' ++ tail)⟩).toList =
        d ++ '-' :: (n0 :: name' ++ tail) from hstrip]
    rw [hserial]
    dsimp only
    rw [hsearch]
    dsimp only
    rw [hps]

theorem parseCourtName_nojudge {d rest : List Char}
    (hd : d ≠ []) (hdall : d.all isDigitChar = true)
    (hC : rest.dropWhile pyIsSpaceChar = rest)
    (hD : rest.all (fun c => c ≠ '\n') = true)
    (hA : (d ++ '-' :: rest).dropWhile pyIsSpaceChar = d ++ '-' :: rest)
    (hB : rstripWs (d ++ '-' :: rest) = d ++ '-' :: rest)
    (hno : ∀ k, k ≤ rest.length → judgeLeads (rest.drop k) = false) :
    parseCourtName ⟨d ++ '-' :: rest⟩ = ⟨some ⟨d⟩, ⟨rest⟩, none⟩ := by
  have hstrip : stripList (d ++ '-' :: rest) = d ++ '-' :: rest :=
    (stripList_via_rstrip _ hA).trans hB
  have hserial := serialMatch_canonical hd hdall hA hC hD
  have hsearch := searchJudge_none rest hno
  simp only [parseCourtName]
  rw [show (pyStrip ⟨d ++ '-' :: rest⟩).toList = d ++ '-' :: rest from hstrip]
  rw [hserial]
  dsimp only
  rw [hsearch]

/-- C8 (amended): the concrete example of the claim holds, the serial number
is the leading digits before the first hyphen, and:
* when the remainder decomposes as a non-empty run `name` of letters and
  whitespace followed directly by the token `JUDGE` (reachable through at
  least one such character, with no closer occurrence of `JUDGE` — the regex
  `([A-Z\s]+?)\s*JUDGE` requires a non-empty `[A-Z\s]` group before the
  token), `court_name_clean` is the title-cased, trimmed text between the
  hyphen and `JUDGE`, and `judge_and_address` is everything from `JUDGE`
  onward, trimmed;
* when `JUDGE` does not occur at all in the remainder, the whole remainder
  becomes `court_name_clean` and `judge_and_address` is `null`.
The un-amended claim's unconditional rule fails when the remainder begins
with `JUDGE` itself (no group character precedes it): the code then takes the
no-match fallback; see `c8_counterexample`. -/
theorem c8_court_name_derivation (d name tail rest : List Char) :
    (parseCourtName "1-CIVIL JUDGE J.D. AND J.M.F.C. PMC PUNE" =
      ⟨some "1", "Civil", some "JUDGE J.D. AND J.M.F.C. PMC PUNE"⟩) ∧
    (d ≠ [] → d.all isDigitChar = true → name ≠ [] → name.all isClassChar = true →
      judgeLeads tail = true → tail.dropWhile pyIsSpaceChar = tail →
      (name ++ tail).dropWhile pyIsSpaceChar = name ++ tail →
      (name ++ tail).all (fun c => c ≠ '\n') = true →
      (d ++ '-' :: (name ++ tail)).dropWhile pyIsSpaceChar =
        d ++ '-' :: (name ++ tail) →
      rstripWs (d ++ '-' :: (name ++ tail)) = d ++ '-' :: (name ++ tail) →
      (∀ k, k < name.length → 0 < k → judgeLeads (name.drop k ++ tail) = false) →
      parseCourtName ⟨d ++ '-' :: (name ++ tail)⟩ =
        ⟨some ⟨d⟩, pyTitle (pyStrip ⟨name⟩), some (pyStrip ⟨tail⟩)⟩) ∧
    (d ≠ [] → d.all isDigitChar = true →
      rest.dropWhile pyIsSpaceChar = rest →
      rest.all (fun c => c ≠ '\n') = true →
      (d ++ '-' :: rest).dropWhile pyIsSpaceChar = d ++ '-' :: rest →
      rstripWs (d ++ '-' :: rest) = d ++ '-' :: rest →
      (∀ k, k ≤ rest.length → judgeLeads (rest.drop k) = false) →
      parseCourtName ⟨d ++ '-' :: rest⟩ = ⟨some ⟨d⟩, ⟨rest⟩, none⟩) := by
  refine ⟨by decide, ?_, ?_⟩
  · intro hd hdall hname hclass htail hwstail hC hD hA hB hocc
    exact parseCourtName_judge hd hdall hname hclass htail hwstail hC hD hA hB hocc
  · intro hd hdall hC hD hA hB hno
    exact parseCourtName_nojudge hd hdall hC hD hA hB hno

/-- C8 counterexample: on `"1-JUDGE SMITH"` the `JUDGE` token opens the
remainder, so the regex (which needs a non-empty group before the token)
does not match: the code yields `court_name_clean = "JUDGE SMITH"` and a null
judge field, while the claim's rule predicts `court_name_clean = ""` and
`judge_and_address = "JUDGE SMITH"`. -/
theorem c8_counterexample :
    parseCourtName "1-JUDGE SMITH" = ⟨some "1", "JUDGE SMITH", none⟩ ∧
    parseCourtName "1-JUDGE SMITH" ≠
      ⟨some "1", pyTitle (pyStrip ""), some (pyStrip "JUDGE SMITH")⟩ := by decide

theorem c8_witness :
    parseCourtName "3-SMALL CAUSES COURT JUDGE SHIVAJINAGAR PUNE" =
      ⟨some "3", "Small Causes Court", some "JUDGE SHIVAJINAGAR PUNE"⟩ ∧
    parseCourtName "2-MOTOR ACCIDENT CLAIMS TRIBUNAL" =
      ⟨some "2", "MOTOR ACCIDENT CLAIMS TRIBUNAL", none⟩ := by
  constructor
  · have h := (c8_court_name_derivation "3".toList "SMALL CAUSES COURT ".toList
      "JUDGE SHIVAJINAGAR PUNE".toList []).2.1 (by decide) (by decide) (by decide)
      (by decide) (by decide) (by decide) (by decide) (by decide) (by decide)
      (by decide) (by decide)
    have hs : (⟨"3".toList ++ '-' ::
        ("SMALL CAUSES COURT ".toList ++ "JUDGE SHIVAJINAGAR PUNE".toList)⟩ : String) =
        "3-SMALL CAUSES COURT JUDGE SHIVAJINAGAR PUNE" := by decide
    rw [hs] at h
    rw [h]
    decide
  · have h := (c8_court_name_derivation "2".toList [] []
      "MOTOR ACCIDENT CLAIMS TRIBUNAL".toList).2.2 (by decide) (by decide) (by decide)
      (by decide) (by decide) (by decide) (by decide)
    have hs : (⟨"2".toList ++ '-' :: "MOTOR ACCIDENT CLAIMS TRIBUNAL".toList⟩ : String) =
        "2-MOTOR ACCIDENT CLAIMS TRIBUNAL" := by decide
    rw [hs] at h
    rw [h]
    decide
